import Mathlib

/- Verification of the jaseci-llmdocs control panel against its design
   document.  The development embeds, as Lean functions, the benchmark run
   monitor of control-panel/src/views/BenchmarkView.tsx, the aggregate
   statistics of EvaluationModal, the pairwise comparison of CompareModal,
   the level-sorted BreakdownSection, and the penalty percentages of
   ResultsView.  Machine numbers (JS doubles) are embedded as exact
   rationals; JS objects keyed by strings are embedded as association
   lists; JS undefined is embedded as Option.none. -/

/-- Per-run entry of the runState record kept by the BenchmarkView socket
listeners: number of batches, completed batches, and the done / failed /
evaluating flags. -/
structure RunSt where
  batches : Nat
  completed : Nat
  done : Bool
  failed : Bool
  evaluating : Bool
deriving DecidableEq, Repr

/-- The status string carried by a benchmark_update socket event, reduced to
the four values handleUpdate distinguishes. -/
inductive UpdStatus where
  | evaluating
  | completed
  | failed
  | other
deriving DecidableEq, Repr

/-- A benchmark_update event as consumed by handleUpdate.  runIdx is the
index of run_id within runIds; an out-of-range index models an unknown
run_id.  num_batches and batch_num are 0 when the field is absent, matching
the JS falsiness tests the code performs on them. -/
structure UpdateEvent where
  runIdx : Nat
  num_batches : Nat
  batch_num : Nat
  status : UpdStatus
deriving DecidableEq, Repr

/-- Monitor state captured by a BenchmarkView listener closure: the per-run
records plus the global counters totalBatches, completedBatches,
runsCompleted and runsFailed. -/
structure MonState where
  runs : List RunSt
  totalBatches : Nat
  completedBatches : Nat
  runsCompleted : Nat
  runsFailed : Nat
deriving DecidableEq, Repr

/-- True exactly on the two terminal update statuses. -/
def UpdStatus.isTerminal : UpdStatus → Bool
  | .completed => true
  | .failed => true
  | _ => false

/-- state.batches after the num_batches step of handleUpdate: adopted only
when the event carries a nonzero num_batches and none was recorded yet. -/
def updBatches (st : RunSt) (e : UpdateEvent) : Nat :=
  if e.num_batches ≠ 0 ∧ st.batches = 0 then e.num_batches else st.batches

/-- state.completed after the batch_num step of handleUpdate: adopted only
when the event carries a nonzero batch_num strictly above the recorded
count (the code computes delta and requires delta > 0). -/
def updCompleted (st : RunSt) (e : UpdateEvent) : Nat :=
  if e.batch_num ≠ 0 ∧ st.completed < e.batch_num then e.batch_num else st.completed

/-- The per-run record after the body of handleUpdate ran on a not-yet-done
run.  A terminal status sets done, clears evaluating, and sets failed on a
failed status; an evaluating status sets the evaluating flag. -/
def updRun (st : RunSt) (e : UpdateEvent) : RunSt :=
  { batches := updBatches st e
    completed := updCompleted st e
    done := st.done || e.status.isTerminal
    failed := st.failed || (e.status == UpdStatus.failed)
    evaluating := if e.status.isTerminal then false else (st.evaluating || (e.status == UpdStatus.evaluating)) }

/-- One step of handleUpdate, shared by the runBenchmark listener and the
reconnect listener of BenchmarkView.  Events whose run_id is not among
runIds, or whose run is already done, are ignored wholesale (the early
returns of the source). -/
def handleUpdate (s : MonState) (e : UpdateEvent) : MonState :=
  match s.runs[e.runIdx]? with
  | none => s
  | some st =>
    if st.done then s
    else
      { runs := s.runs.set e.runIdx (updRun st e)
        totalBatches :=
          if e.num_batches ≠ 0 ∧ st.batches = 0 then s.totalBatches + e.num_batches else s.totalBatches
        completedBatches :=
          if e.batch_num ≠ 0 ∧ st.completed < e.batch_num then
            s.completedBatches + (e.batch_num - st.completed)
          else s.completedBatches
        runsCompleted := if e.status.isTerminal then s.runsCompleted + 1 else s.runsCompleted
        runsFailed := if e.status == UpdStatus.failed then s.runsFailed + 1 else s.runsFailed }

/-- The overall status values a BenchmarkView listener can derive. -/
inductive OverallStatus where
  | running
  | evaluating
  | completed
  | failed
deriving DecidableEq, Repr

/-- evaluatingCount as computed in handleUpdate: the number of run records
whose evaluating flag is set. -/
def evaluatingCount (s : MonState) : Nat :=
  (s.runs.filter fun r => r.evaluating).length

/-- finalStatus as computed in handleUpdate: completed or failed when every
run is counted completed, else evaluating when all generations are done and
some run is evaluating, else running. -/
def finalStatus (s : MonState) : OverallStatus :=
  if s.runsCompleted = s.runs.length then
    (if 0 < s.runsFailed then .failed else .completed)
  else if (s.runs.all fun r => r.done || r.evaluating) ∧ 0 < evaluatingCount s then .evaluating
  else .running

/-- Modelled from the spec: the overall-status derivation stated in section
4.4 of the design document, written directly over the per-run records:
completed when all runs are terminal and none failed, failed when all runs
are terminal and one failed, evaluating when every run has finished or is
evaluating and some run is still evaluating, running otherwise. -/
def specOverallStatus (runs : List RunSt) : OverallStatus :=
  if runs.all fun r => r.done then
    (if runs.any fun r => r.failed then .failed else .completed)
  else if (runs.all fun r => r.done || r.evaluating) ∧ (runs.any fun r => r.evaluating) then .evaluating
  else .running

/-- Initial closure state of the runBenchmark listener: one zeroed record
per queued run and zeroed global counters. -/
def initState (n : Nat) : MonState :=
  { runs := List.replicate n ⟨0, 0, false, false, false⟩
    totalBatches := 0
    completedBatches := 0
    runsCompleted := 0
    runsFailed := 0 }

/-- Initial closure state of setupSocketListener given the server snapshot:
each run contributes its (num_batches, batch_num) pair and the global totals
are the sums over the snapshot, as in the runIds.forEach loop. -/
def listenerInit (data : List (Nat × Nat)) : MonState :=
  { runs := data.map fun p => ⟨p.1, p.2, false, false, false⟩
    totalBatches := (data.map fun p => p.1).sum
    completedBatches := (data.map fun p => p.2).sum
    runsCompleted := 0
    runsFailed := 0 }

/-- Reachability of a monitor state by a sequence of benchmark_update
events. -/
inductive Reaches (s₀ : MonState) : MonState → Prop
  | refl : Reaches s₀ s₀
  | step {s : MonState} (e : UpdateEvent) : Reaches s₀ s → Reaches s₀ (handleUpdate s e)

/-- The batches_total_global field of the status object passed to setStatus.
The source writes totalBatches || undefined, so a zero total is reported as
undefined, embedded as none. -/
def emittedTotalGlobal (s : MonState) : Option Nat :=
  if s.totalBatches = 0 then none else some s.totalBatches

/-- The batches_completed_global field of the status object passed to
setStatus (written without a falsiness guard). -/
def emittedCompletedGlobal (s : MonState) : Nat :=
  s.completedBatches

/-- Closure invariant of the BenchmarkView listeners: each global counter
agrees with the per-run records it summarizes, and a run marked failed is
also marked done. -/
def MonInv (s : MonState) : Prop :=
  s.totalBatches = (s.runs.map fun r => r.batches).sum ∧
  s.completedBatches = (s.runs.map fun r => r.completed).sum ∧
  s.runsCompleted = (s.runs.map fun r => r.done.toNat).sum ∧
  s.runsFailed = (s.runs.map fun r => r.failed.toNat).sum ∧
  ∀ r ∈ s.runs, r.failed = true → r.done = true

/-- Per-file summary block of an EvaluationResult as typed in
EvaluationModal, restricted to the scalar fields the aggregations read. -/
structure Summary where
  overall_percentage : ℚ
  total_score : ℚ
  total_max : ℚ
  tests_completed : Nat
deriving DecidableEq, Repr

/-- One entry of results.results in EvaluationModal: an optional error
string and an optional summary. -/
structure FileResult where
  error : Option String
  summary : Option Summary
deriving DecidableEq, Repr

/-- JS falsiness of result.error: an absent error and the empty string are
both falsy, everything else is truthy. -/
def errFalsy : Option String → Bool
  | none => true
  | some s => s.isEmpty

/-- fileResults of EvaluationModal: the entries that have a summary and a
falsy error field. -/
def fileResults (rs : List (String × FileResult)) : List (String × FileResult) :=
  rs.filter fun p => p.2.summary.isSome && errFalsy p.2.error

/-- The totalStats reduce of EvaluationModal, restricted to the totalScore
and totalMax accumulators (the filtered entries always carry a summary; the
none branch keeps the accumulator and is unreachable). -/
def totalStats (rs : List (String × FileResult)) : ℚ × ℚ :=
  (fileResults rs).foldl
    (fun acc p =>
      match p.2.summary with
      | some su => (acc.1 + su.total_score, acc.2 + su.total_max)
      | none => acc)
    (0, 0)

/-- averagePercentage of EvaluationModal: total score over total max times
100 when the total max is positive, 0 otherwise. -/
def averagePercentage (rs : List (String × FileResult)) : ℚ :=
  if 0 < (totalStats rs).2 then (totalStats rs).1 / (totalStats rs).2 * 100 else 0

/-- percentages of EvaluationModal: the overall_percentage of each evaluable
file (the none branch is unreachable after the fileResults filter). -/
def percentages (rs : List (String × FileResult)) : List ℚ :=
  (fileResults rs).map fun p =>
    match p.2.summary with
    | some su => su.overall_percentage
    | none => 0

/-- The standard-deviation statistic computed inside coeffOfVariation of
EvaluationModal, embedded through its square: mean of the inputs, squared
deviations, and variance with the population divisor (the length of the
input list); 0 outright when fewer than two inputs are present.  The source
then takes Math.sqrt of the variance; the square root is omitted from the
rational embedding (it is strictly monotone on nonnegative reals, so the
zero case and the divisor are represented faithfully). -/
def stdDevSq (ps : List ℚ) : ℚ :=
  if ps.length < 2 then 0
  else
    let mean := ps.foldl (· + ·) 0 / (ps.length : ℚ)
    let squaredDiffs := ps.map fun p => (p - mean) ^ 2
    squaredDiffs.foldl (· + ·) 0 / (ps.length : ℚ)

/-- stash.category_averages[cat] || 0 of CompareModal: association-list
lookup with default 0 (a stored 0 is falsy in JS and also yields 0). -/
def lookupAvg (m : List (String × ℚ)) (cat : String) : ℚ :=
  match m.find? fun p => p.1 == cat with
  | some p => p.2
  | none => 0

/-- One entry of categoryDifferences of CompareModal. -/
structure CatDiff where
  category : String
  score1 : ℚ
  score2 : ℚ
  diff : ℚ
deriving DecidableEq, Repr

/-- categoryDifferences of CompareModal: the per-category score pair and
delta over all_categories, sorted by descending absolute difference.
Array.prototype.sort is stable, embedded as a stable insertion sort. -/
def categoryDifferences (allCats : List String) (avg1 avg2 : List (String × ℚ)) : List CatDiff :=
  List.insertionSort (fun a b => |b.diff| ≤ |a.diff|)
    (allCats.map fun cat =>
      { category := cat
        score1 := lookupAvg avg1 cat
        score2 := lookupAvg avg2 cat
        diff := lookupAvg avg2 cat - lookupAvg avg1 cat })

/-- JS String.prototype.split on a hyphen separator, on char lists; like the
JS original it yields one (possibly empty) part more than the number of
separators. -/
def splitDash : List Char → List (List Char)
  | [] => [[]]
  | c :: cs =>
    if c = '-' then [] :: splitDash cs
    else
      match splitDash cs with
      | [] => [[c]]
      | p :: ps => (c :: p) :: ps

/-- Array.prototype.join on a hyphen separator, on char lists. -/
def joinDash : List (List Char) → List Char
  | [] => []
  | [p] => p
  | p :: ps => p ++ '-' :: joinDash ps

/-- The filename parsing shared by fileMetadata of EvaluationModal and
parseMetadata of CompareModal (before its display mapping): split the
filename on hyphens; when there are at least three parts and the last part
contains an underscore, the variant is the next-to-last part and the model
is the earlier parts rejoined with hyphens; otherwise no metadata. -/
def fileMetadata (filename : List Char) : Option (List Char × List Char) :=
  let parts := splitDash filename
  if 3 ≤ parts.length then
    let timestampIdx := parts.length - 1
    if '_' ∈ parts.getD timestampIdx [] then
      some (joinDash (parts.take (timestampIdx - 1)), parts.getD (timestampIdx - 1) [])
    else none
  else none

/-- The YYYYMMDD_HHMMSS shape of the timestamp component of artifact ids:
15 characters, an underscore at index 8, digits everywhere else. -/
def isTimestamp (t : List Char) : Bool :=
  t.length == 15 && t.getD 8 ' ' == '_' &&
    t.all fun c => c.isDigit || c == '_'

/-- key.replace of BreakdownSection with the non-digit pattern: keep only
the digit characters of a level key. -/
def stripNonDigits (s : List Char) : List Char :=
  s.filter fun c => c.isDigit

/-- parseInt on an all-digit string: usual base-10 accumulation. -/
def parseIntDigits (s : List Char) : Nat :=
  s.foldl (fun acc c => 10 * acc + (c.toNat - '0'.toNat)) 0

/-- The numeric level BreakdownSection extracts from a level key. -/
def levelNum (s : List Char) : Nat :=
  parseIntDigits (stripNonDigits s)

/-- The sortByLevel ordering of BreakdownSection entries: stable JS sort
with comparator numA - numB, embedded as a stable insertion sort on the
extracted numeric level. -/
def sortEntriesByLevel {α : Type} (entries : List (List Char × α)) : List (List Char × α) :=
  List.insertionSort (fun a b => levelNum a.1 ≤ levelNum b.1) entries

/-- totalMaxPoints of ResultsView: results.summary?.total_max || 1, so an
absent and a zero total both fall back to a denominator of 1. -/
def totalMaxPoints (totalMax : Option ℚ) : ℚ :=
  match totalMax with
  | none => 1
  | some v => if v = 0 then 1 else v

/-- Penalty totals by kind as accumulated by ResultsView (the syntax kind is
named syntaxPen because syntax is a reserved word in Lean). -/
structure PenaltyBreakdown where
  required : ℚ
  forbidden : ℚ
  syntaxPen : ℚ
  jac_check : ℚ
  functional : ℚ
deriving DecidableEq, Repr

/-- totalPenaltyPercentages of ResultsView: each penalty total divided by
totalMaxPoints, times 100. -/
def totalPenaltyPercentages (pb : PenaltyBreakdown) (totalMax : Option ℚ) : PenaltyBreakdown :=
  { required := pb.required / totalMaxPoints totalMax * 100
    forbidden := pb.forbidden / totalMaxPoints totalMax * 100
    syntaxPen := pb.syntaxPen / totalMaxPoints totalMax * 100
    jac_check := pb.jac_check / totalMaxPoints totalMax * 100
    functional := pb.functional / totalMaxPoints totalMax * 100 }

/-- Replacing one element of a list shifts a mapped Nat sum by the images of
the old and new elements. -/
theorem sum_map_set {α : Type} (f : α → Nat) (l : List α) (i : Nat) (a b : α)
    (h : l[i]? = some b) :
    ((l.set i a).map f).sum + f b = (l.map f).sum + f a := by
  induction l generalizing i with
  | nil => simp at h
  | cons hd tl ih =>
    cases i with
    | zero =>
      simp only [List.getElem?_cons_zero, Option.some.injEq] at h
      subst h
      simp only [List.set_cons_zero, List.map_cons, List.sum_cons]
      omega
    | succ j =>
      simp only [List.getElem?_cons_succ] at h
      have := ih j h
      simp only [List.set_cons_succ, List.map_cons, List.sum_cons]
      omega

/-- A sum of Bool indicators is at most the length of the list. -/
theorem sum_toNat_le_length {α : Type} (f : α → Bool) (l : List α) :
    (l.map fun x => (f x).toNat).sum ≤ l.length := by
  induction l with
  | nil => simp
  | cons hd tl ih =>
    cases hf : f hd <;> simp [hf] <;> omega

/-- A sum of Bool indicators equals the length exactly when every element
satisfies the predicate. -/
theorem sum_toNat_eq_length_iff {α : Type} (f : α → Bool) (l : List α) :
    ((l.map fun x => (f x).toNat).sum = l.length) ↔ l.all f = true := by
  induction l with
  | nil => simp
  | cons hd tl ih =>
    have hle := sum_toNat_le_length f tl
    rw [List.all_cons]
    cases hf : f hd
    · simp only [hf, Bool.false_and, List.map_cons, List.sum_cons, List.length_cons,
        Bool.toNat_false]
      constructor
      · intro hc; omega
      · intro hc; cases hc
    · simp only [hf, Bool.true_and, List.map_cons, List.sum_cons, List.length_cons,
        Bool.toNat_true]
      rw [← ih]
      omega

/-- A sum of Bool indicators is positive exactly when some element satisfies
the predicate. -/
theorem sum_toNat_pos_iff {α : Type} (f : α → Bool) (l : List α) :
    (0 < (l.map fun x => (f x).toNat).sum) ↔ l.any f = true := by
  induction l with
  | nil => simp
  | cons hd tl ih =>
    rw [List.any_cons]
    cases hf : f hd
    · simpa [hf] using ih
    · simp [hf]

/-- The listener invariant holds in the initial runBenchmark state. -/
theorem monInv_initState (n : Nat) : MonInv (initState n) := by
  unfold MonInv initState
  refine ⟨?_, ?_, ?_, ?_, ?_⟩ <;> simp

/-- The listener invariant holds in the initial reconnect-listener state,
whatever snapshot the server reports. -/
theorem monInv_listenerInit (data : List (Nat × Nat)) : MonInv (listenerInit data) := by
  unfold MonInv listenerInit
  refine ⟨?_, ?_, ?_, ?_, ?_⟩
  · dsimp only
    rw [List.map_map]
    rfl
  · dsimp only
    rw [List.map_map]
    rfl
  · induction data with
    | nil => simp
    | cons hd tl ih => simpa using ih
  · induction data with
    | nil => simp
    | cons hd tl ih => simpa using ih
  · intro r hr
    simp only [List.mem_map] at hr
    obtain ⟨p, -, rfl⟩ := hr
    intro hq
    simp at hq

/-- handleUpdate preserves the listener invariant. -/
theorem monInv_step (s : MonState) (e : UpdateEvent) (h : MonInv s) :
    MonInv (handleUpdate s e) := by
  obtain ⟨h1, h2, h3, h4, h5⟩ := h
  unfold handleUpdate
  split
  · exact ⟨h1, h2, h3, h4, h5⟩
  · rename_i st hg
    split
    · exact ⟨h1, h2, h3, h4, h5⟩
    · rename_i hd
      have hd0 : st.done = false := by
        cases hdd : st.done
        · rfl
        · exact absurd hdd hd
      have hmem : st ∈ s.runs := by
        obtain ⟨hlt, hEq⟩ := List.getElem?_eq_some.mp hg
        exact hEq ▸ List.getElem_mem hlt
      have hstf : st.failed = false := by
        cases hff : st.failed
        · rfl
        · rw [h5 st hmem hff] at hd0
          cases hd0
      refine ⟨?_, ?_, ?_, ?_, ?_⟩
      · dsimp only
        have hb := sum_map_set (fun r => r.batches) s.runs e.runIdx (updRun st e) st hg
        dsimp only at hb
        have hbr : (updRun st e).batches = updBatches st e := rfl
        rw [hbr] at hb
        unfold updBatches at hb
        by_cases hcond : e.num_batches ≠ 0 ∧ st.batches = 0
        · obtain ⟨hc1, hc2⟩ := hcond
          rw [if_pos ⟨hc1, hc2⟩] at hb
          rw [if_pos ⟨hc1, hc2⟩]
          omega
        · rw [if_neg hcond] at hb
          rw [if_neg hcond]
          omega
      · dsimp only
        have hc := sum_map_set (fun r => r.completed) s.runs e.runIdx (updRun st e) st hg
        dsimp only at hc
        have hcr : (updRun st e).completed = updCompleted st e := rfl
        rw [hcr] at hc
        unfold updCompleted at hc
        by_cases hcond : e.batch_num ≠ 0 ∧ st.completed < e.batch_num
        · obtain ⟨hc1, hc2⟩ := hcond
          rw [if_pos ⟨hc1, hc2⟩] at hc
          rw [if_pos ⟨hc1, hc2⟩]
          omega
        · rw [if_neg hcond] at hc
          rw [if_neg hcond]
          omega
      · dsimp only
        have hdn := sum_map_set (fun r => r.done.toNat) s.runs e.runIdx (updRun st e) st hg
        dsimp only at hdn
        have hdr : (updRun st e).done = (st.done || e.status.isTerminal) := rfl
        rw [hdr, hd0, Bool.false_or, Bool.toNat_false] at hdn
        cases ht : e.status.isTerminal
        · rw [ht, Bool.toNat_false] at hdn
          rw [if_neg Bool.false_ne_true]
          omega
        · rw [ht, Bool.toNat_true] at hdn
          rw [if_pos rfl]
          omega
      · dsimp only
        have hfn := sum_map_set (fun r => r.failed.toNat) s.runs e.runIdx (updRun st e) st hg
        dsimp only at hfn
        have hfr : (updRun st e).failed = (st.failed || (e.status == UpdStatus.failed)) := rfl
        rw [hfr, hstf, Bool.false_or, Bool.toNat_false] at hfn
        cases hq : (e.status == UpdStatus.failed)
        · rw [hq, Bool.toNat_false] at hfn
          rw [if_neg Bool.false_ne_true]
          omega
        · rw [hq, Bool.toNat_true] at hfn
          rw [if_pos rfl]
          omega
      · intro r hr
        dsimp only at hr
        rcases List.mem_or_eq_of_mem_set hr with hmem2 | rfl
        · exact h5 r hmem2
        · have hfr2 : (updRun st e).failed = (st.failed || (e.status == UpdStatus.failed)) := rfl
          have hdr2 : (updRun st e).done = (st.done || e.status.isTerminal) := rfl
          rw [hfr2, hdr2, hstf, hd0, Bool.false_or, Bool.false_or]
          intro hq
          have hqe : e.status = UpdStatus.failed := eq_of_beq hq
          rw [hqe]
          rfl

/-- The listener invariant holds in every reachable state. -/
theorem monInv_reaches {s₀ s : MonState} (h₀ : MonInv s₀) (h : Reaches s₀ s) : MonInv s := by
  induction h with
  | refl => exact h₀
  | step e _ ih => exact monInv_step _ e ih

/-- Under the listener invariant, the finalStatus derivation of handleUpdate
agrees with the overall-status derivation written in the design document. -/
theorem finalStatus_eq_spec (s : MonState) (h : MonInv s) :
    finalStatus s = specOverallStatus s.runs := by
  obtain ⟨-, -, h3, h4, -⟩ := h
  have hall : (s.runsCompleted = s.runs.length) ↔ (s.runs.all fun r => r.done) = true := by
    rw [h3]
    exact sum_toNat_eq_length_iff _ _
  have hany : (0 < s.runsFailed) ↔ (s.runs.any fun r => r.failed) = true := by
    rw [h4]
    exact sum_toNat_pos_iff _ _
  have hev : (0 < evaluatingCount s) ↔ (s.runs.any fun r => r.evaluating) = true := by
    unfold evaluatingCount
    rw [← List.countP_eq_length_filter, List.countP_pos_iff, List.any_eq_true]
  unfold finalStatus specOverallStatus
  by_cases hA : (s.runs.all fun r => r.done) = true
  · rw [if_pos (hall.mpr hA), if_pos hA]
    by_cases hF : (s.runs.any fun r => r.failed) = true
    · rw [if_pos (hany.mpr hF), if_pos hF]
    · rw [if_neg (fun hc => hF (hany.mp hc)), if_neg hF]
  · rw [if_neg (fun hc => hA (hall.mp hc)), if_neg hA]
    by_cases hG : ((s.runs.all fun r => r.done || r.evaluating) = true) ∧ (s.runs.any fun r => r.evaluating) = true
    · rw [if_pos ⟨hG.1, hev.mpr hG.2⟩, if_pos hG]
    · have hG2 : ¬ (((s.runs.all fun r => r.done || r.evaluating) = true) ∧ 0 < evaluatingCount s) :=
        fun hc => hG ⟨hc.1, hev.mp hc.2⟩
      rw [if_neg hG2, if_neg hG]

/-- C1: for every submission of N runs (and likewise for a reconnect
snapshot) and every sequence of per-run status update events, the derived
overall status is completed when all runs reported a terminal status and
none reported failed, failed when all reported terminal and at least one
failed, evaluating when every run has either finished or entered evaluation
and at least one run is still evaluating, and running otherwise (the
specOverallStatus derivation written from the spec). -/
theorem c1_overall_status (n : Nat) (data : List (Nat × Nat)) (s : MonState)
    (h : Reaches (initState n) s ∨ Reaches (listenerInit data) s) :
    finalStatus s = specOverallStatus s.runs := by
  rcases h with h | h
  · exact finalStatus_eq_spec s (monInv_reaches (monInv_initState n) h)
  · exact finalStatus_eq_spec s (monInv_reaches (monInv_listenerInit data) h)

/-- C1 witness: a submission of two runs where one run entered evaluation
and the other completed derives the evaluating status, matching the spec
derivation. -/
theorem c1_overall_status_witness :
    finalStatus (handleUpdate (handleUpdate (initState 2) ⟨0, 2, 1, UpdStatus.evaluating⟩) ⟨1, 3, 0, UpdStatus.completed⟩) = OverallStatus.evaluating ∧
    finalStatus (handleUpdate (handleUpdate (initState 2) ⟨0, 2, 1, UpdStatus.evaluating⟩) ⟨1, 3, 0, UpdStatus.completed⟩) =
      specOverallStatus (handleUpdate (handleUpdate (initState 2) ⟨0, 2, 1, UpdStatus.evaluating⟩) ⟨1, 3, 0, UpdStatus.completed⟩).runs :=
  ⟨by decide, c1_overall_status 2 [] _ (Or.inl (Reaches.step _ (Reaches.step _ Reaches.refl)))⟩

/-- C2 as stated is refuted: after an update that arrives before any run
reported its num_batches, the emitted batches_total_global is undefined
(none) although the sum of the per-run batch counts is 0, so the emitted
field does not equal the sum. -/
theorem c2_counterexample :
    ¬ (emittedTotalGlobal (handleUpdate (initState 1) ⟨0, 0, 0, UpdStatus.evaluating⟩) =
        some (((handleUpdate (initState 1) ⟨0, 0, 0, UpdStatus.evaluating⟩).runs.map fun r => r.batches).sum)) := by
  decide

/-- C2 (amended): after each status update, batches_completed_global equals
the sum over runs of the completed-batch counts; the internal total equals
the sum over runs of the batch counts, and the emitted batches_total_global
reports that sum whenever it is nonzero and is undefined (none) when the
sum is zero. -/
theorem c2_progress_totals (n : Nat) (data : List (Nat × Nat)) (s : MonState)
    (h : Reaches (initState n) s ∨ Reaches (listenerInit data) s) :
    emittedCompletedGlobal s = (s.runs.map fun r => r.completed).sum ∧
    s.totalBatches = (s.runs.map fun r => r.batches).sum ∧
    (0 < s.totalBatches → emittedTotalGlobal s = some ((s.runs.map fun r => r.batches).sum)) ∧
    (s.totalBatches = 0 → emittedTotalGlobal s = none) := by
  have hin : MonInv s := by
    rcases h with h | h
    · exact monInv_reaches (monInv_initState n) h
    · exact monInv_reaches (monInv_listenerInit data) h
  obtain ⟨h1, h2, -, -, -⟩ := hin
  refine ⟨h2, h1, ?_, ?_⟩
  · intro hpos
    unfold emittedTotalGlobal
    rw [if_neg (by omega)]
    rw [h1]
  · intro hz
    unfold emittedTotalGlobal
    rw [if_pos hz]

/-- C2 witness: one run whose first update reports 5 batches with 2 of them
completed yields a defined emitted total of 5 and matching sums. -/
theorem c2_progress_totals_witness :
    emittedTotalGlobal (handleUpdate (initState 1) ⟨0, 5, 2, UpdStatus.other⟩) = some 5 ∧
    (emittedCompletedGlobal (handleUpdate (initState 1) ⟨0, 5, 2, UpdStatus.other⟩) =
        ((handleUpdate (initState 1) ⟨0, 5, 2, UpdStatus.other⟩).runs.map fun r => r.completed).sum ∧
      (handleUpdate (initState 1) ⟨0, 5, 2, UpdStatus.other⟩).totalBatches =
        ((handleUpdate (initState 1) ⟨0, 5, 2, UpdStatus.other⟩).runs.map fun r => r.batches).sum ∧
      (0 < (handleUpdate (initState 1) ⟨0, 5, 2, UpdStatus.other⟩).totalBatches →
        emittedTotalGlobal (handleUpdate (initState 1) ⟨0, 5, 2, UpdStatus.other⟩) =
          some (((handleUpdate (initState 1) ⟨0, 5, 2, UpdStatus.other⟩).runs.map fun r => r.batches).sum)) ∧
      ((handleUpdate (initState 1) ⟨0, 5, 2, UpdStatus.other⟩).totalBatches = 0 →
        emittedTotalGlobal (handleUpdate (initState 1) ⟨0, 5, 2, UpdStatus.other⟩) = none)) :=
  ⟨by decide, c2_progress_totals 1 [] _ (Or.inl (Reaches.step _ Reaches.refl))⟩

/-- C8: once a run has reported a terminal status its record is frozen: any
further event leaves the record (hence its contribution to every global
aggregate) unchanged, and an event addressed to that run leaves the whole
monitor state, including all counters, unchanged. -/
theorem c8_terminal_frozen (s : MonState) (e : UpdateEvent) (i : Nat) (st : RunSt)
    (hget : s.runs[i]? = some st) (hdone : st.done = true) :
    (handleUpdate s e).runs[i]? = some st ∧ (e.runIdx = i → handleUpdate s e = s) := by
  by_cases he : e.runIdx = i
  · subst he
    constructor
    · simp [handleUpdate, hget, hdone]
    · intro
      simp [handleUpdate, hget, hdone]
  · constructor
    · unfold handleUpdate
      cases hg : s.runs[e.runIdx]? with
      | none => exact hget
      | some st2 =>
        dsimp only
        by_cases hd2 : st2.done = true
        · rw [if_pos hd2]
          exact hget
        · rw [if_neg hd2]
          dsimp only
          rw [List.getElem?_set_ne he]
          exact hget
    · intro hc
      exact absurd hc he

/-- C8 witness: a run that reported completed ignores a later failed update
with fresh batch counts; the whole state is unchanged. -/
theorem c8_terminal_frozen_witness :
    (handleUpdate (handleUpdate (initState 1) ⟨0, 0, 0, UpdStatus.completed⟩) ⟨0, 7, 3, UpdStatus.failed⟩ =
      handleUpdate (initState 1) ⟨0, 0, 0, UpdStatus.completed⟩) ∧
    (handleUpdate (handleUpdate (initState 1) ⟨0, 0, 0, UpdStatus.completed⟩) ⟨0, 7, 3, UpdStatus.failed⟩).runs[0]? =
      some ⟨0, 0, true, false, false⟩ :=
  ⟨(c8_terminal_frozen _ ⟨0, 7, 3, UpdStatus.failed⟩ 0 ⟨0, 0, true, false, false⟩ (by decide) (by decide)).2 rfl,
   (c8_terminal_frozen _ ⟨0, 7, 3, UpdStatus.failed⟩ 0 ⟨0, 0, true, false, false⟩ (by decide) (by decide)).1⟩

/-- C9: the global completed-batch counter never decreases under an update,
and an update whose batch_num is at most the run previously recorded count
leaves both that run recorded count and the global counter unchanged. -/
theorem c9_completed_monotone (s : MonState) (e : UpdateEvent) :
    s.completedBatches ≤ (handleUpdate s e).completedBatches ∧
    (∀ st, s.runs[e.runIdx]? = some st → e.batch_num ≤ st.completed →
      (handleUpdate s e).completedBatches = s.completedBatches ∧
      ((handleUpdate s e).runs[e.runIdx]?).map (fun r => r.completed) = some st.completed) := by
  unfold handleUpdate
  cases hg : s.runs[e.runIdx]? with
  | none =>
    refine ⟨le_refl _, ?_⟩
    intro st hst
    simp at hst
  | some st2 =>
    dsimp only
    by_cases hd2 : st2.done = true
    · rw [if_pos hd2]
      refine ⟨le_refl _, ?_⟩
      intro st hst hle
      cases hst
      refine ⟨rfl, ?_⟩
      rw [hg]
      rfl
    · rw [if_neg hd2]
      dsimp only
      constructor
      · by_cases hcond : e.batch_num ≠ 0 ∧ st2.completed < e.batch_num
        · rw [if_pos hcond]
          omega
        · rw [if_neg hcond]
      · intro st hst hle
        cases hst
        have hcondf : ¬ (e.batch_num ≠ 0 ∧ st2.completed < e.batch_num) := by
          intro hcc
          omega
        constructor
        · rw [if_neg hcondf]
        · obtain ⟨hlt, -⟩ := List.getElem?_eq_some.mp hg
          rw [List.getElem?_set_self hlt, Option.map_some']
          have hcu : (updRun st2 e).completed = st2.completed := by
            have h0 : (updRun st2 e).completed = updCompleted st2 e := rfl
            rw [h0]
            unfold updCompleted
            rw [if_neg hcondf]
          rw [hcu]

/-- C9 witness: an update reporting batch_num 0 (at most the recorded count
0) leaves the recorded count and the global counter unchanged. -/
theorem c9_completed_monotone_witness :
    (initState 1).completedBatches ≤ (handleUpdate (initState 1) ⟨0, 0, 0, UpdStatus.other⟩).completedBatches ∧
    (handleUpdate (initState 1) ⟨0, 0, 0, UpdStatus.other⟩).completedBatches = (initState 1).completedBatches ∧
    ((handleUpdate (initState 1) ⟨0, 0, 0, UpdStatus.other⟩).runs[0]?).map (fun r => r.completed) = some 0 :=
  ⟨(c9_completed_monotone (initState 1) ⟨0, 0, 0, UpdStatus.other⟩).1,
   (c9_completed_monotone (initState 1) ⟨0, 0, 0, UpdStatus.other⟩).2 ⟨0, 0, false, false, false⟩ (by decide) (by decide)⟩

/-- The totalStats reduce accumulates exactly the sums of total_score and
total_max over its input list. -/
theorem foldl_stats (l : List (String × FileResult)) (a b : ℚ) :
    l.foldl
      (fun acc p =>
        match p.2.summary with
        | some su => (acc.1 + su.total_score, acc.2 + su.total_max)
        | none => acc)
      (a, b) =
    (a + (l.map fun p =>
        match p.2.summary with
        | some su => su.total_score
        | none => 0).sum,
     b + (l.map fun p =>
        match p.2.summary with
        | some su => su.total_max
        | none => 0).sum) := by
  induction l generalizing a b with
  | nil => simp
  | cons hd tl ih =>
    cases hs : hd.2.summary with
    | none =>
      simp only [List.foldl_cons, hs, List.map_cons, List.sum_cons]
      rw [ih]
      simp
    | some su =>
      simp only [List.foldl_cons, hs, List.map_cons, List.sum_cons]
      rw [ih]
      simp [Prod.ext_iff]
      constructor <;> ring

/-- Folding rational addition from an accumulator computes the sum. -/
theorem foldl_add_eq_sum (l : List ℚ) (a : ℚ) :
    l.foldl (· + ·) a = a + l.sum := by
  induction l generalizing a with
  | nil => simp
  | cons hd tl ih =>
    simp only [List.foldl_cons, List.sum_cons]
    rw [ih]
    ring

/-- C3: when the evaluable files (those with a summary and no error) carry a
positive total max, the reported average overall percentage equals the sum
of their total_score divided by the sum of their total_max, times 100. -/
theorem c3_average_percentage (rs : List (String × FileResult))
    (hpos : 0 < ((fileResults rs).map fun p =>
        match p.2.summary with
        | some su => su.total_max
        | none => 0).sum) :
    averagePercentage rs =
      ((fileResults rs).map fun p =>
        match p.2.summary with
        | some su => su.total_score
        | none => 0).sum /
      ((fileResults rs).map fun p =>
        match p.2.summary with
        | some su => su.total_max
        | none => 0).sum * 100 := by
  unfold averagePercentage totalStats
  rw [foldl_stats]
  dsimp only
  simp only [zero_add]
  rw [if_pos hpos]

/-- C3 witness: a single evaluable file scoring 5 of 10 reports an average
percentage of 50. -/
theorem c3_average_percentage_witness :
    (0 < ((fileResults [("a", FileResult.mk none (some (Summary.mk 50 5 10 3)))]).map fun p =>
        match p.2.summary with
        | some su => su.total_max
        | none => 0).sum) ∧
    averagePercentage [("a", FileResult.mk none (some (Summary.mk 50 5 10 3)))] =
      ((fileResults [("a", FileResult.mk none (some (Summary.mk 50 5 10 3)))]).map fun p =>
        match p.2.summary with
        | some su => su.total_score
        | none => 0).sum /
      ((fileResults [("a", FileResult.mk none (some (Summary.mk 50 5 10 3)))]).map fun p =>
        match p.2.summary with
        | some su => su.total_max
        | none => 0).sum * 100 ∧
    averagePercentage [("a", FileResult.mk none (some (Summary.mk 50 5 10 3)))] = 50 := by
  have hpos : (0 < ((fileResults [("a", FileResult.mk none (some (Summary.mk 50 5 10 3)))]).map fun p =>
      match p.2.summary with
      | some su => su.total_max
      | none => 0).sum) := by
    norm_num [fileResults, errFalsy]
  refine ⟨hpos, c3_average_percentage _ hpos, ?_⟩
  norm_num [averagePercentage, totalStats, fileResults, errFalsy]

/-- C4: the standard-deviation statistic over the per-artifact overall
percentages is reported as 0 when fewer than two artifacts are present;
with two or more, its square (the variance) times the number of artifacts
equals the sum of squared deviations from the mean, i.e. the divisor is the
number of artifacts (population formula, not the sample formula). -/
theorem c4_stddev_population (ps : List ℚ) :
    (ps.length < 2 → stdDevSq ps = 0) ∧
    (2 ≤ ps.length →
      stdDevSq ps * (ps.length : ℚ) =
        (ps.map fun p => (p - ps.sum / (ps.length : ℚ)) ^ 2).sum) := by
  constructor
  · intro h
    unfold stdDevSq
    rw [if_pos h]
  · intro h
    have hn : (ps.length : ℚ) ≠ 0 := Nat.cast_ne_zero.mpr (by omega)
    unfold stdDevSq
    rw [if_neg (by omega)]
    dsimp only
    simp only [foldl_add_eq_sum, zero_add]
    exact div_mul_cancel₀ _ hn

/-- C4 witness: the two percentages 1 and 3 have mean 2 and population
variance 1 (the sample formula would give 2), and an empty collection
reports 0. -/
theorem c4_stddev_population_witness :
    stdDevSq ([] : List ℚ) = 0 ∧
    stdDevSq [1, 3] * (([1, 3] : List ℚ).length : ℚ) =
      (([1, 3] : List ℚ).map fun p => (p - ([1, 3] : List ℚ).sum / (([1, 3] : List ℚ).length : ℚ)) ^ 2).sum ∧
    stdDevSq [1, 3] = 1 :=
  ⟨(c4_stddev_population []).1 (by norm_num),
   (c4_stddev_population [1, 3]).2 (by norm_num),
   by norm_num [stdDevSq]⟩

/-- C10: aggregate percentage computations never divide by zero: with no
evaluable mass (total max 0) the average percentage is reported as 0, and
with an absent or zero summary total_max the penalty denominator falls back
to 1, so each penalty percentage is the penalty total times 100. -/
theorem c10_no_division_by_zero (rs : List (String × FileResult))
    (h1 : (totalStats rs).2 = 0) (tm : Option ℚ) (h2 : tm = none ∨ tm = some 0)
    (pb : PenaltyBreakdown) :
    averagePercentage rs = 0 ∧ totalMaxPoints tm = 1 ∧
    totalPenaltyPercentages pb tm =
      ⟨pb.required * 100, pb.forbidden * 100, pb.syntaxPen * 100, pb.jac_check * 100, pb.functional * 100⟩ := by
  have htm : totalMaxPoints tm = 1 := by
    rcases h2 with h | h <;> rw [h] <;> simp [totalMaxPoints]
  refine ⟨?_, htm, ?_⟩
  · unfold averagePercentage
    rw [h1]
    rw [if_neg (lt_irrefl 0)]
  · unfold totalPenaltyPercentages
    rw [htm]
    simp [div_one]

/-- C10 witness: the empty collection reports average 0, and an absent
total_max yields denominator 1 so penalties 1..5 become 100..500. -/
theorem c10_no_division_by_zero_witness :
    (totalStats ([] : List (String × FileResult))).2 = 0 ∧
    averagePercentage ([] : List (String × FileResult)) = 0 ∧
    totalMaxPoints none = 1 ∧
    totalPenaltyPercentages ⟨1, 2, 3, 4, 5⟩ none = ⟨100, 200, 300, 400, 500⟩ := by
  have h := c10_no_division_by_zero [] rfl none (Or.inl rfl) ⟨1, 2, 3, 4, 5⟩
  refine ⟨rfl, h.1, h.2.1, ?_⟩
  rw [h.2.2]
  norm_num

/-- C5: for every category in the all_categories union list, the reported
categoryDifferences list contains an entry for that category whose delta is
the second collection mean minus the first collection mean, with a missing
category mean treated as 0 (the lookupAvg default). -/
theorem c5_category_delta (allCats : List String) (avg1 avg2 : List (String × ℚ))
    (cat : String) (h : cat ∈ allCats) :
    ∃ e ∈ categoryDifferences allCats avg1 avg2,
      e.category = cat ∧ e.diff = lookupAvg avg2 cat - lookupAvg avg1 cat := by
  refine ⟨⟨cat, lookupAvg avg1 cat, lookupAvg avg2 cat, lookupAvg avg2 cat - lookupAvg avg1 cat⟩,
    ?_, rfl, rfl⟩
  unfold categoryDifferences
  have hperm := List.perm_insertionSort (fun a b : CatDiff => |b.diff| ≤ |a.diff|)
    (allCats.map fun cat =>
      CatDiff.mk cat (lookupAvg avg1 cat) (lookupAvg avg2 cat)
        (lookupAvg avg2 cat - lookupAvg avg1 cat))
  rw [hperm.mem_iff]
  exact List.mem_map_of_mem _ h

/-- C5 witness: comparing a collection without the jac category against one
averaging 5 there reports delta 5 - 0. -/
theorem c5_category_delta_witness :
    ("jac" ∈ ["jac"]) ∧
    ∃ e ∈ categoryDifferences ["jac"] [] [("jac", 5)],
      e.category = "jac" ∧ e.diff = lookupAvg [("jac", 5)] "jac" - lookupAvg [] "jac" :=
  ⟨by decide, c5_category_delta ["jac"] [] [("jac", 5)] "jac" (by decide)⟩

/-- C6: BreakdownSection with sortByLevel renders the entries of a level
breakdown as a permutation of the input that is pairwise ascending in the
integer extracted from the digits of each level key (stated for keys that
contain at least one digit; on a digit-free key JS parseInt yields NaN and
the comparator result is treated as 0). -/
theorem c6_level_sorted {α : Type} (entries : List (List Char × α))
    (hdig : ∀ p ∈ entries, stripNonDigits p.1 ≠ []) :
    List.Sorted (fun a b => levelNum a.1 ≤ levelNum b.1) (sortEntriesByLevel entries) ∧
    (sortEntriesByLevel entries).Perm entries := by
  constructor
  · unfold sortEntriesByLevel
    haveI ht : IsTotal (List Char × α) (fun a b => levelNum a.1 ≤ levelNum b.1) :=
      ⟨fun a b => Nat.le_total _ _⟩
    haveI htr : IsTrans (List Char × α) (fun a b => levelNum a.1 ≤ levelNum b.1) :=
      ⟨fun a b c hab hbc => Nat.le_trans hab hbc⟩
    exact List.sorted_insertionSort _ _
  · exact List.perm_insertionSort _ _

/-- C6 witness: the keys lv10 and lv2 sort as lv2 before lv10 (numeric 2
before 10, not the lexicographic order). -/
theorem c6_level_sorted_witness :
    (∀ p ∈ [(['l', 'v', '1', '0'], 1), (['l', 'v', '2'], 2)], stripNonDigits p.1 ≠ []) ∧
    List.Sorted (fun a b => levelNum a.1 ≤ levelNum b.1)
      (sortEntriesByLevel [(['l', 'v', '1', '0'], 1), (['l', 'v', '2'], 2)]) ∧
    (sortEntriesByLevel [(['l', 'v', '1', '0'], 1), (['l', 'v', '2'], 2)]).Perm
      [(['l', 'v', '1', '0'], 1), (['l', 'v', '2'], 2)] ∧
    sortEntriesByLevel [(['l', 'v', '1', '0'], 1), (['l', 'v', '2'], 2)] =
      [(['l', 'v', '2'], 2), (['l', 'v', '1', '0'], 1)] :=
  ⟨by decide,
   (c6_level_sorted [(['l', 'v', '1', '0'], 1), (['l', 'v', '2'], 2)] (by decide)).1,
   (c6_level_sorted [(['l', 'v', '1', '0'], 1), (['l', 'v', '2'], 2)] (by decide)).2,
   by decide⟩

/-- splitDash never returns the empty list (JS split always yields at least
one part). -/
theorem splitDash_ne_nil (s : List Char) : splitDash s ≠ [] := by
  cases s with
  | nil => simp [splitDash]
  | cons c cs =>
    simp only [splitDash]
    by_cases hc : c = '-'
    · rw [if_pos hc]
      simp
    · rw [if_neg hc]
      cases h : splitDash cs <;> simp

/-- splitDash distributes over an append through a hyphen. -/
theorem splitDash_append (xs ys : List Char) :
    splitDash (xs ++ '-' :: ys) = splitDash xs ++ splitDash ys := by
  have h1 : ∀ t, splitDash ('-' :: t) = [] :: splitDash t := by
    intro t
    simp only [splitDash]
    simp
  induction xs with
  | nil =>
    rw [List.nil_append, h1]
    rfl
  | cons c cs ih =>
    by_cases hc : c = '-'
    · subst hc
      rw [List.cons_append, h1, h1, ih, List.cons_append]
    · have h2 : ∀ t, splitDash (c :: t) =
          (match splitDash t with
          | [] => [[c]]
          | p :: ps => (c :: p) :: ps) := by
        intro t
        simp only [splitDash]
        rw [if_neg hc]
      rw [List.cons_append, h2, h2, ih]
      cases hcs : splitDash cs with
      | nil => exact absurd hcs (splitDash_ne_nil cs)
      | cons p ps => simp

/-- splitDash on a hyphen-free string is the singleton of that string. -/
theorem splitDash_no_dash (s : List Char) (h : '-' ∉ s) : splitDash s = [s] := by
  induction s with
  | nil => rfl
  | cons c cs ih =>
    have hc : ¬ (c = '-') := by
      intro hcc
      exact h (by rw [← hcc]; exact List.mem_cons_self c cs)
    have hcs : '-' ∉ cs := fun hm => h (List.mem_cons_of_mem _ hm)
    simp only [splitDash]
    rw [if_neg hc, ih hcs]

/-- joinDash undoes splitDash. -/
theorem joinDash_splitDash (s : List Char) : joinDash (splitDash s) = s := by
  induction s with
  | nil => rfl
  | cons c cs ih =>
    by_cases hc : c = '-'
    · subst hc
      have h1 : splitDash ('-' :: cs) = [] :: splitDash cs := by
        simp only [splitDash]
        simp
      rw [h1]
      cases hcs : splitDash cs with
      | nil => exact absurd hcs (splitDash_ne_nil cs)
      | cons p ps =>
        rw [hcs] at ih
        show '-' :: joinDash (p :: ps) = '-' :: cs
        rw [ih]
    · have h2 : splitDash (c :: cs) =
          (match splitDash cs with
          | [] => [[c]]
          | p :: ps => (c :: p) :: ps) := by
        simp only [splitDash]
        rw [if_neg hc]
      rw [h2]
      cases hcs : splitDash cs with
      | nil => exact absurd hcs (splitDash_ne_nil cs)
      | cons p ps =>
        rw [hcs] at ih
        cases ps with
        | nil =>
          simp only [joinDash] at ih ⊢
          rw [ih]
        | cons q qs =>
          show (c :: p) ++ '-' :: joinDash (q :: qs) = c :: cs
          rw [List.cons_append, ← ih]
          rfl

/-- getD just past a prefix of an append with a two-element tail picks the
first tail element at the prefix length and the second one past it. -/
theorem getD_append_pair {α : Type} (A : List α) (v t d : α) :
    (A ++ [v, t]).getD A.length d = v ∧ (A ++ [v, t]).getD (A.length + 1) d = t := by
  induction A with
  | nil => exact ⟨rfl, rfl⟩
  | cons a as ih =>
    constructor
    · simp only [List.cons_append, List.length_cons, List.getD_cons_succ]
      exact ih.1
    · simp only [List.cons_append, List.length_cons, List.getD_cons_succ]
      exact ih.2

/-- The shape of fileMetadata on a filename whose hyphen split is a
nonempty prefix followed by a variant part and an underscore-bearing
timestamp part: the parser returns the rejoined prefix and the variant. -/
theorem fileMetadata_of_split (s : List Char) (A : List (List Char)) (v t : List Char)
    (hs : splitDash s = A ++ [v, t]) (hA : A ≠ []) (hund : '_' ∈ t) :
    fileMetadata s = some (joinDash A, v) := by
  have hApos : 0 < A.length := List.length_pos.mpr hA
  unfold fileMetadata
  rw [hs]
  dsimp only
  have hlen : (A ++ [v, t]).length = A.length + 2 := by simp
  rw [hlen]
  have e1 : A.length + 2 - 1 = A.length + 1 := by omega
  rw [e1]
  have e2 : A.length + 1 - 1 = A.length := by omega
  rw [if_pos (by omega), (getD_append_pair A v t []).2, if_pos hund, e2,
    (getD_append_pair A v t []).1, List.take_left]

/-- C7: the artifact-id round trip through the filename parser: for every
model slug m (hyphens allowed), every hyphen-free variant v and every
YYYYMMDD_HHMMSS timestamp t, parsing the filename m-v-t recovers exactly
the model m and the variant v. -/
theorem c7_filename_roundtrip (m v t : List Char)
    (hv : '-' ∉ v) (ht : isTimestamp t = true) :
    fileMetadata (m ++ '-' :: (v ++ '-' :: t)) = some (m, v) := by
  have ht' := ht
  unfold isTimestamp at ht'
  simp only [Bool.and_eq_true, beq_iff_eq, List.all_eq_true] at ht'
  obtain ⟨⟨hlen15, hgd⟩, hall⟩ := ht'
  have h8 : 8 < t.length := by omega
  have hund : '_' ∈ t := by
    rw [List.getD_eq_getElem t ' ' h8] at hgd
    rw [← hgd]
    exact List.getElem_mem h8
  have htd : '-' ∉ t := by
    intro hm
    exact absurd (hall '-' hm) (by decide)
  have hsplit : splitDash (m ++ '-' :: (v ++ '-' :: t)) = splitDash m ++ [v, t] := by
    rw [splitDash_append, splitDash_append, splitDash_no_dash v hv, splitDash_no_dash t htd]
    rfl
  have hres := fileMetadata_of_split _ (splitDash m) v t hsplit (splitDash_ne_nil m) hund
  rw [joinDash_splitDash] at hres
  exact hres

/-- C7 witness: the filename claude-son-mini_v3-20251116_230045 parses back
into model claude-son (with its internal hyphen) and variant mini_v3. -/
theorem c7_filename_roundtrip_witness :
    ('-' ∉ ['m', 'i', 'n', 'i', '_', 'v', '3']) ∧
    isTimestamp ['2', '0', '2', '5', '1', '1', '1', '6', '_', '2', '3', '0', '0', '4', '5'] = true ∧
    fileMetadata (['c', 'l', 'a', 'u', 'd', 'e', '-', 's', 'o', 'n'] ++ '-' ::
        (['m', 'i', 'n', 'i', '_', 'v', '3'] ++ '-' ::
          ['2', '0', '2', '5', '1', '1', '1', '6', '_', '2', '3', '0', '0', '4', '5'])) =
      some (['c', 'l', 'a', 'u', 'd', 'e', '-', 's', 'o', 'n'], ['m', 'i', 'n', 'i', '_', 'v', '3']) :=
  ⟨by decide, by decide,
   c7_filename_roundtrip ['c', 'l', 'a', 'u', 'd', 'e', '-', 's', 'o', 'n']
     ['m', 'i', 'n', 'i', '_', 'v', '3']
     ['2', '0', '2', '5', '1', '1', '1', '6', '_', '2', '3', '0', '0', '4', '5']
     (by decide) (by decide)⟩
